import Mathlib

/-!
Verification of the suggestion core of the `search-autocomplete` repository.

The Go sources are shallowly embedded as follows.

* Go strings are `List Char` (decoded code points). All inputs exercised here
  are ASCII, where Go's byte-indexed loops (`Trie.deleteHelper`) agree with the
  rune loops used elsewhere; `strings.ToLower` is modelled by its ASCII case
  mapping and `strings.TrimSpace` by trimming ASCII whitespace.
* `float64` score arithmetic is modelled by exact rationals (`Rat`).  None of
  the properties settled here depends on floating-point rounding: the boosts
  multiply by the exact constants 2, 1/(1+n/10) and 11/10, and the tie-break,
  mutation and ordering questions are invariant under the exact/float choice.
* `int`/`int64` are modelled by `Int` (no operation here approaches 2^63).
* `time.Time` values are rationals counting hours; `time.Since(u).Hours()`
  becomes `now - u` for an explicit `now` parameter.
* Go maps are association lists with unique keys, iterated in insertion order.
  Go's map iteration order is unspecified; all statements proved about
  map-iterating code either use single-key maps or are order-independent.
* `sort.Slice` runs plain insertion sort for slices shorter than 12 elements,
  which is the unique stable sort for the given comparator; it is modelled by
  `List.insertionSort` with the source's comparator closed under ties
  (`scoreGe`).  Every concrete slice sorted in this file is shorter than 12.
* In-place mutation through a slice is modelled by returning the new contents
  of the backing array; a method on a struct becomes a function from the old
  struct to the new one.  Panics are modelled by `Option` (`none` = panic).
  Mutexes, metrics and logging are irrelevant to the functional behaviour and
  are dropped.
-/

/-! ## String primitives (Go `strings` package, ASCII fragment) -/

/-- Code points of a string literal. -/
def gs (s : String) : List Char := s.data

/-- ASCII fragment of `unicode.ToLower` as used by `strings.ToLower`. -/
def toLowerChar (c : Char) : Char :=
  if 'A' ≤ c ∧ c ≤ 'Z' then Char.ofNat (c.toNat + 32) else c

/-- `strings.ToLower`, mapped over the code points. -/
def toLowerL (l : List Char) : List Char := l.map toLowerChar

/-- ASCII whitespace recognised by `strings.TrimSpace`. -/
def isSpaceChar (c : Char) : Bool :=
  c.toNat = 32 ∨ c.toNat = 9 ∨ c.toNat = 10 ∨ c.toNat = 13 ∨ c.toNat = 11 ∨ c.toNat = 12

/-- `strings.TrimSpace`: drop whitespace from both ends. -/
def trimL (l : List Char) : List Char :=
  ((l.dropWhile isSpaceChar).reverse.dropWhile isSpaceChar).reverse

/-- Term/query normalisation `strings.ToLower(strings.TrimSpace(x))`, the
form used by every trie operation (part_004 lines 47, 102, 178, 232). -/
def normalizeTerm (l : List Char) : List Char := toLowerL (trimL l)

/-- `strings.HasPrefix s p`. -/
def hasPrefixL : List Char → List Char → Bool
  | _, [] => true
  | [], _ :: _ => false
  | c :: rest, p :: prest => decide (c = p) && hasPrefixL rest prest

/-- `strings.Contains s sub`. -/
def containsL (s sub : List Char) : Bool :=
  if hasPrefixL s sub then true
  else
    match s with
    | [] => false
    | _ :: rest => containsL rest sub

/-! ## Data model (`pkg/models`, part of src/pkg/errors/errors.go) -/

/-- Suggestion record (`models.Suggestion`).  `Score` is the base score
(`float64` in Go, exact rational here); `UpdatedAt` is an instant in hours. -/
structure Suggestion where
  Term : List Char
  Frequency : Int
  Score : Rat
  Category : List Char
  UpdatedAt : Rat
deriving DecidableEq, Repr

/-- Comparator under which Go's `sort.Slice(..., s[i].Score > s[j].Score)`
sorts: descending score, ties kept in input order by stability. -/
def scoreGe (a b : Suggestion) : Prop := b.Score ≤ a.Score

instance : DecidableRel scoreGe := fun a b => inferInstanceAs (Decidable (b.Score ≤ a.Score))

instance : IsTotal Suggestion scoreGe := ⟨fun a b => le_total b.Score a.Score⟩

instance : IsTrans Suggestion scoreGe := ⟨fun _ _ _ hab hbc => le_trans hbc hab⟩

/-- Model of `sort.Slice(suggestions, func(i,j) { Score[i] > Score[j] })`:
for slices shorter than 12 elements Go's sort is exactly stable insertion
sort, i.e. `List.insertionSort` under `scoreGe`. -/
def sortGo (l : List Suggestion) : List Suggestion := List.insertionSort scoreGe l

/-- Trie node (`models.TrieNode`): children map (association list in first
insertion order), terminal flag, candidate list and the visit counter. -/
inductive TrieNode : Type where
  | mk : List (Char × TrieNode) → Bool → List Suggestion → Int → TrieNode
deriving Repr

/-- Children map of a node. -/
def TrieNode.children : TrieNode → List (Char × TrieNode)
  | .mk cs _ _ _ => cs

/-- Terminal flag of a node. -/
def TrieNode.isEndOfWord : TrieNode → Bool
  | .mk _ e _ _ => e

/-- Candidate list of a node. -/
def TrieNode.suggestions : TrieNode → List Suggestion
  | .mk _ _ s _ => s

/-- Visit counter of a node. -/
def TrieNode.frequency : TrieNode → Int
  | .mk _ _ _ f => f

/-- Go map read `children[c]` (first matching key). -/
def getChild : List (Char × TrieNode) → Char → Option TrieNode
  | [], _ => none
  | (c2, t) :: rest, c => if c2 = c then some t else getChild rest c

/-- Go map write `children[c] = t` (replace the binding or append it). -/
def setChild : List (Char × TrieNode) → Char → TrieNode → List (Char × TrieNode)
  | [], c, t => [(c, t)]
  | (c2, t2) :: rest, c, t =>
      if c2 = c then (c2, t) :: rest else (c2, t2) :: setChild rest c t

/-- Go builtin `delete(children, c)`. -/
def removeChild : List (Char × TrieNode) → Char → List (Char × TrieNode)
  | [], _ => []
  | (c2, t2) :: rest, c => if c2 = c then rest else (c2, t2) :: removeChild rest c

/-- Trie handle (`trie.Trie`): root node and the `size` counter maintained by
`Insert`/`Delete` (part_004 lines 13-18; mutex and metrics dropped). -/
structure Trie where
  root : TrieNode
  size : Int

/-- `trie.New()` (part_004 lines 21-29). -/
def Trie.empty : Trie := ⟨.mk [] false [] 0, 0⟩

/-! ## Trie operations (src/unnamed/part_004) -/

/-- Candidate-slot update inside `Trie.Insert` (part_004 lines 69-76):
overwrite the first candidate whose verbatim `Term` equals the new one. -/
def upsertFirst : List Suggestion → Suggestion → List Suggestion
  | [], _ => []
  | c :: rest, s => if c.Term = s.Term then s :: rest else c :: upsertFirst rest s

/-- Walk/create loop of `Trie.Insert` (part_004 lines 52-88).  Descends the
normalised term creating missing children, incrementing each visited child's
visit counter, and applies the terminal-node candidate logic; the returned
flag says whether the `size` counter is incremented (a fresh terminal whose
candidate was appended). -/
def Trie.insertWalk : TrieNode → List Char → Suggestion → TrieNode × Bool
  | .mk cs e sugs fr, [], s =>
      let isNewSuggestion := !e
      let found := sugs.any fun c => decide (c.Term = s.Term)
      let newSugs := if found then upsertFirst sugs s else sugs ++ [s]
      (.mk cs true (sortGo newSugs) fr, (!found) && isNewSuggestion)
  | .mk cs e sugs fr, c :: rest, s =>
      let child0 := (getChild cs c).getD (.mk [] false [] 0)
      let child1 : TrieNode := .mk child0.children child0.isEndOfWord child0.suggestions
        (child0.frequency + 1)
      let r := Trie.insertWalk child1 rest s
      (.mk (setChild cs c r.1) e sugs fr, r.2)

/-- `Trie.Insert` (part_004 lines 43-95). -/
def Trie.Insert (t : Trie) (s : Suggestion) : Trie :=
  let term := normalizeTerm s.Term
  if term.isEmpty then t
  else
    let r := Trie.insertWalk t.root term s
    ⟨r.1, if r.2 then t.size + 1 else t.size⟩

/-- Prefix-walk loop shared by `Trie.Search` (lines 108-118) and
`Trie.UpdateFrequency` (lines 237-243): follow the children maps, `none`
when a link is missing. -/
def walkPath : TrieNode → List Char → Option TrieNode
  | node, [] => some node
  | node, c :: rest =>
      match getChild node.children c with
      | none => none
      | some child => walkPath child rest

mutual
/-- `Trie.collectSuggestions` (part_004 lines 142-150): candidates of a node
(when terminal) followed by those of its descendants. -/
def collectSuggestions : TrieNode → List Suggestion
  | .mk cs e sugs _ => (if e then sugs else []) ++ collectChildren cs

/-- Iteration of `collectSuggestions` over a children map. -/
def collectChildren : List (Char × TrieNode) → List Suggestion
  | [] => []
  | (_, t) :: rest => collectSuggestions t ++ collectChildren rest
end

/-- `Trie.Search` (part_004 lines 98-139).  The result is `none` when the Go
code panics: `suggestions[:limit]` is evaluated whenever
`len(suggestions) > limit`, and slicing with a negative bound panics. -/
def Trie.Search (t : Trie) (pre : List Char) (limit : Int) : Option (List Suggestion) :=
  let p := normalizeTerm pre
  if p.isEmpty then some []
  else
    match walkPath t.root p with
    | none => some []
    | some node =>
        let sugs := sortGo (collectSuggestions node)
        if (sugs.length : Int) > limit then
          if limit < 0 then none else some (sugs.take limit.toNat)
        else some sugs

mutual
/-- `Trie.countSuggestions` (part_004 lines 163-171). -/
def countSuggestions : TrieNode → Nat
  | .mk cs e sugs _ => (if e then sugs.length else 0) + countChildren cs

/-- Iteration of `countSuggestions` over a children map. -/
def countChildren : List (Char × TrieNode) → Nat
  | [] => 0
  | (_, t) :: rest => countSuggestions t + countChildren rest
end

/-- `Trie.GetSuggestionsCount` (part_004 lines 153-160). -/
def Trie.GetSuggestionsCount (t : Trie) : Nat := countSuggestions t.root

/-- `Trie.deleteHelper` (part_004 lines 197-225), with the byte index
replaced by the remaining suffix of the term.  Returns the helper's boolean
(the prune flag, which `Delete` interprets as "deleted") and the mutated
node. -/
def Trie.deleteHelper : TrieNode → List Char → Bool × TrieNode
  | .mk cs e sugs fr, [] =>
      if e then (cs.isEmpty, .mk cs false [] fr)
      else (false, .mk cs e sugs fr)
  | .mk cs e sugs fr, c :: rest =>
      match getChild cs c with
      | none => (false, .mk cs e sugs fr)
      | some child =>
          let r := Trie.deleteHelper child rest
          if r.1 then
            let cs2 := removeChild cs c
            (cs2.isEmpty && !e, .mk cs2 e sugs fr)
          else (false, .mk (setChild cs c r.2) e sugs fr)

/-- `Trie.Delete` (part_004 lines 174-194). -/
def Trie.Delete (t : Trie) (term : List Char) : Bool × Trie :=
  let tm := normalizeTerm term
  if tm.isEmpty then (false, t)
  else
    let r := Trie.deleteHelper t.root tm
    (r.1, ⟨r.2, if r.1 then t.size - 1 else t.size⟩)

/-- Candidate update inside `Trie.UpdateFrequency` (part_004 lines 246-253):
set `Frequency` and recompute `Score` on the first candidate whose
lower-cased verbatim term equals the normalised term. -/
def updateFirstMatch : List Suggestion → List Char → Int → List Suggestion
  | [], _, _ => []
  | c :: rest, term, f =>
      if toLowerL c.Term = term then { c with Frequency := f, Score := (f : Rat) } :: rest
      else c :: updateFirstMatch rest term f

/-- Walk of `Trie.UpdateFrequency` (part_004 lines 237-259): follow the path
(no-op when absent); at a terminal node update the matching candidate and
re-sort the candidate list. -/
def Trie.updateFreqWalk : TrieNode → List Char → List Char → Int → TrieNode
  | .mk cs e sugs fr, [], term, f =>
      if e then .mk cs e (sortGo (updateFirstMatch sugs term f)) fr
      else .mk cs e sugs fr
  | .mk cs e sugs fr, c :: rest, term, f =>
      match getChild cs c with
      | none => .mk cs e sugs fr
      | some child => .mk (setChild cs c (Trie.updateFreqWalk child rest term f)) e sugs fr

/-- `Trie.UpdateFrequency` (part_004 lines 228-260). -/
def Trie.UpdateFrequency (t : Trie) (term : List Char) (f : Int) : Trie :=
  let tm := normalizeTerm term
  if tm.isEmpty then t
  else ⟨Trie.updateFreqWalk t.root tm tm f, t.size⟩

/-! ## Ranker (`AutocompleteService.rankSuggestions`, src/unnamed/part_001 lines 1406-1439) -/

/-- Per-candidate boost computation of `rankSuggestions` (part_001 lines
1412-1431), written back into the candidate's `Score` field.  `now` is the
explicit clock (hours); `daysSinceUpdate` is `(now - UpdatedAt) / 24`. -/
def boostSuggestion (now : Rat) (query : List Char) (s : Suggestion) : Suggestion :=
  let score0 := s.Score
  let score1 := if hasPrefixL (toLowerL s.Term) query then score0 * 2 else score0
  let lengthBoost : Rat := 1 / (1 + (s.Term.length : Rat) / 10)
  let score2 := score1 * lengthBoost
  let daysSinceUpdate := (now - s.UpdatedAt) / 24
  let score3 := if daysSinceUpdate < 7 then score2 * (11 / 10) else score2
  { s with Score := score3 }

/-- `rankSuggestions` (part_001 lines 1406-1439).  The Go method writes the
boosted scores through the argument slice and sorts it in place, then returns
the same slice; the returned list is therefore also the contents of the
caller's slice after the call. -/
def rankSuggestions (now : Rat) (sugs : List Suggestion) (query : List Char) : List Suggestion :=
  if sugs.isEmpty then sugs
  else sortGo (sugs.map (boostSuggestion now query))

/-! ## In-process cache (`InMemoryCache`, src/unnamed/part_003 lines 203-292) -/

/-- Cache entry (`cacheItem`, part_003 lines 211-214); `expiry` in hours. -/
structure CacheItem where
  suggestions : List Suggestion
  expiry : Rat
deriving DecidableEq, Repr

/-- Go map read `c.data[query]`. -/
def lookupKey : List (List Char × CacheItem) → List Char → Option CacheItem
  | [], _ => none
  | (k2, it) :: rest, k => if k2 = k then some it else lookupKey rest k

/-- Go map write `c.data[query] = item`. -/
def setKey : List (List Char × CacheItem) → List Char → CacheItem → List (List Char × CacheItem)
  | [], k, it => [(k, it)]
  | (k2, it2) :: rest, k, it =>
      if k2 = k then (k2, it) :: rest else (k2, it2) :: setKey rest k it

/-- Go builtin `delete(c.data, query)`. -/
def eraseKey : List (List Char × CacheItem) → List Char → List (List Char × CacheItem)
  | [], _ => []
  | (k2, it2) :: rest, k => if k2 = k then rest else (k2, it2) :: eraseKey rest k

/-- `InMemoryCache.Get` (part_003 lines 232-250): result is
`(payload, hit, new store)`, where a `nil` payload is `none`.  An entry is a
miss when absent or when `time.Now().After(item.expiry)` (strictly later);
an expired entry is deleted on the way out. -/
def InMemoryCache.Get (data : List (List Char × CacheItem)) (now : Rat) (query : List Char) :
    Option (List Suggestion) × Bool × List (List Char × CacheItem) :=
  match lookupKey data query with
  | none => (none, false, data)
  | some item =>
      if item.expiry < now then (none, false, eraseKey data query)
      else (some item.suggestions, true, data)

/-- `InMemoryCache.Set` (part_003 lines 253-265): store with expiry
`now + ttl`, replacing any existing entry. -/
def InMemoryCache.Set (data : List (List Char × CacheItem)) (now ttl : Rat)
    (query : List Char) (sugs : List Suggestion) : List (List Char × CacheItem) :=
  setKey data query ⟨sugs, now + ttl⟩

/-! ## Ingestion pipeline (`pipeline.DataPipeline`, src/unnamed/part_001 lines 1474-1829) -/

/-- Search event (`models.SearchLog`); the user/session/address fields play
no role in the embedded pipeline functions and are omitted. -/
structure SearchLog where
  Query : List Char
  Timestamp : Rat
deriving DecidableEq, Repr

/-- Characters kept by `normalizeQuery`'s `FieldsFunc` predicate (part_001
lines 1824-1826): ASCII lower-case letters, digits and the space. -/
def keepChar (c : Char) : Bool :=
  ('a' ≤ c ∧ c ≤ 'z') ∨ ('0' ≤ c ∧ c ≤ '9') ∨ c.toNat = 32

/-- `normalizeQuery` (part_001 lines 1819-1829): lower-case and trim, split
into maximal runs of kept characters, and re-join with single spaces. -/
def normalizeQuery (q : List Char) : List Char :=
  let lowered := toLowerL (trimL q)
  let fields := (lowered.splitOnP fun c => !(keepChar c)).filter fun f => !f.isEmpty
  List.intercalate ((Char.ofNat 32) :: []) fields

/-- Keyword lexicon for `tech` (part_001 line 1794). -/
def techTerms : List (List Char) :=
  [gs "app", gs "software", gs "computer", gs "tech", gs "programming", gs "code",
   gs "api", gs "web", gs "mobile", gs "android", gs "ios"]

/-- Keyword lexicon for `business` (part_001 line 1801). -/
def businessTerms : List (List Char) :=
  [gs "company", gs "business", gs "service", gs "product", gs "market", gs "sales",
   gs "marketing"]

/-- Keyword lexicon for `entertainment` (part_001 line 1808). -/
def entertainmentTerms : List (List Char) :=
  [gs "movie", gs "music", gs "game", gs "video", gs "show", gs "entertainment",
   gs "sport", gs "book"]

/-- `categorizeQuery` (part_001 lines 1790-1816). -/
def categorizeQuery (q : List Char) : List Char :=
  let q2 := toLowerL q
  if techTerms.any fun t => containsL q2 t then gs "tech"
  else if businessTerms.any fun t => containsL q2 t then gs "business"
  else if entertainmentTerms.any fun t => containsL q2 t then gs "entertainment"
  else gs "general"

/-- `AutocompleteService.AddSuggestion` (part_001 lines 1283-1300): default
`UpdatedAt` (the zero instant is `0`) to `now` and a zero `Score` to the
frequency, then insert into the trie.  The cache is nil in the pipeline
model, so no invalidation arm is embedded. -/
def AddSuggestion (t : Trie) (now : Rat) (s : Suggestion) : Trie :=
  if s.Term.isEmpty then t
  else
    let s1 := if s.UpdatedAt = 0 then { s with UpdatedAt := now } else s
    let s2 := if s1.Score = 0 then { s1 with Score := (s1.Frequency : Rat) } else s1
    Trie.Insert t s2

/-- Go map update `m[k] += d` on an `int64`-valued map. -/
def bumpKey : List (List Char × Int) → List Char → Int → List (List Char × Int)
  | [], k, d => [(k, d)]
  | (k2, v) :: rest, k, d =>
      if k2 = k then (k2, v + d) :: rest else (k2, v) :: bumpKey rest k d

/-- Batch aggregation of `processBatch` (part_001 lines 1613-1621): count
each log's normalised query, skipping queries that normalise to empty. -/
def queryFreqOf (logs : List SearchLog) : List (List Char × Int) :=
  logs.foldl
    (fun m log =>
      let q := normalizeQuery log.Query
      if q.isEmpty then m else bumpKey m q 1)
    []

/-- `extractNewSuggestions` (part_001 lines 1688-1707): every aggregated
query of length 2..50 is submitted to the index as a fresh suggestion with
`Frequency = delta`, `Score = float64(delta)` and an inferred category. -/
def extractNewSuggestions (t : Trie) (now : Rat) (qf : List (List Char × Int)) : Trie :=
  qf.foldl
    (fun acc p =>
      if p.1.length < 2 ∨ 50 < p.1.length then acc
      else
        AddSuggestion acc now
          { Term := p.1, Frequency := p.2, Score := (p.2 : Rat),
            Category := categorizeQuery p.1, UpdatedAt := now })
    t

/-- Pipeline state: the service's trie, the pending-frequency map
(`DataPipeline.freqUpdates`) and the trend detector's per-query timestamp
window (`recentQueries`, local to `detectTrending`, part_001 line 1716).
The bounded log queue is flattened away: batches are handed to
`processBatch` exactly as the batcher does. -/
structure PipelineState where
  trie : Trie
  freqUpdates : List (List Char × Int)
  recentQueries : List (List Char × List Rat)

/-- `processBatch` (part_001 lines 1605-1637): aggregate the batch, merge it
into the pending-frequency map and extract new suggestions. -/
def processBatch (st : PipelineState) (logs : List SearchLog) (now : Rat) : PipelineState :=
  if logs.isEmpty then st
  else
    let qf := queryFreqOf logs
    let pending := qf.foldl (fun m p => bumpKey m p.1 p.2) st.freqUpdates
    { st with trie := extractNewSuggestions st.trie now qf, freqUpdates := pending }

/-- `flushFrequencyUpdates` (part_001 lines 1661-1685): swap out the pending
map and call `UpdateFrequency(term, delta)` for each pending pair.  (The
service wrapper also spawns an asynchronous cache invalidation, which holds
no index state and is not embedded.) -/
def flushFrequencyUpdates (st : PipelineState) : PipelineState :=
  { st with
      trie := st.freqUpdates.foldl (fun t p => Trie.UpdateFrequency t p.1 p.2) st.trie,
      freqUpdates := [] }

/-- Window read `recentQueries[query]` in `analyzeTrends`. -/
def lookupWindow : List (List Char × List Rat) → List Char → Option (List Rat)
  | [], _ => none
  | (k2, ts) :: rest, k => if k2 = k then some ts else lookupWindow rest k

/-- `analyzeTrends` (part_001 lines 1732-1787): prune each query's window to
the last 24 hours; a query with at least 5 remaining events whose
last-hour/rest ratio exceeds 3/2 is trending and its frequency is set to
`int64(float64(len(recent)) * (1 + trendScore))` (truncation = floor on
non-negative values). -/
def analyzeTrends (st : PipelineState) (now : Rat) : PipelineState :=
  let dayAgo := now - 24
  let hourAgo := now - 1
  let window2 := st.recentQueries.map fun p => (p.1, p.2.filter fun ts => dayAgo < ts)
  let trending := window2.filterMap fun p =>
    if p.2.length < 5 then none
    else
      let hourCount := (p.2.filter fun ts => hourAgo < ts).length
      let dayCount := p.2.length
      if hourCount < dayCount then
        let trendScore : Rat := (hourCount : Rat) / ((dayCount : Rat) - (hourCount : Rat))
        if (3 : Rat) / 2 < trendScore then some (p.1, trendScore) else none
      else none
  let trie2 := trending.foldl
    (fun t p =>
      let currentFreq : Int := (((lookupWindow window2 p.1).getD []).length : Int)
      Trie.UpdateFrequency t p.1 (Int.floor ((currentFreq : Rat) * (1 + p.2))))
    st.trie
  { trie := trie2, freqUpdates := st.freqUpdates, recentQueries := window2 }

/-- One worker action of the pipeline: a batcher flush (`processBatch`), a
frequency flush, or a trend-detector tick.  These are the only code paths
that touch the pipeline's shared state; in particular no action writes new
timestamps into the detector window, mirroring the source, where
`recentQueries` is a local of `detectTrending` that is only ever read and
pruned by `analyzeTrends`. -/
inductive PipeStep : PipelineState → PipelineState → Prop where
  | batch (st : PipelineState) (logs : List SearchLog) (now : Rat) :
      PipeStep st (processBatch st logs now)
  | flush (st : PipelineState) : PipeStep st (flushFrequencyUpdates st)
  | detect (st : PipelineState) (now : Rat) : PipeStep st (analyzeTrends st now)

/-- Pipeline states reachable from start-up: `NewDataPipeline` begins with an
empty pending map and `detectTrending` begins with an empty window (part_001
lines 1511-1533 and 1716), over an arbitrary bootstrapped trie. -/
inductive Reachable : PipelineState → Prop where
  | init (t : Trie) : Reachable ⟨t, [], []⟩
  | step {s s2 : PipelineState} : Reachable s → PipeStep s s2 → Reachable s2

/-! ## Helper lemmas -/

/-- Bridge between `l ≠ []` and the `isEmpty` test used by the Go guards. -/
theorem isEmpty_false_of_ne {l : List Char} (h : l ≠ []) : l.isEmpty = false := by
  cases l with
  | nil => exact absurd rfl h
  | cons a rest => rfl

/-- Single chain of trie nodes as built by inserting one term into an empty
subtree: `fr` is the head node's visit counter, `cf` the counter of every
node below it, and `sugs` the terminal's candidate list. -/
def chainW (sugs : List Suggestion) (cf : Int) (fr : Int) : List Char → TrieNode
  | [] => .mk [] true sugs fr
  | c :: rest => .mk [(c, chainW sugs cf cf rest)] false [] fr

theorem insertWalk_fresh (s : Suggestion) :
    ∀ (p : List Char) (fr : Int),
      Trie.insertWalk (.mk [] false [] fr) p s = (chainW [s] 1 fr p, true) := by
  intro p
  induction p with
  | nil =>
      intro fr
      simp [Trie.insertWalk, chainW, sortGo, List.insertionSort, List.orderedInsert]
  | cons c rest ih =>
      intro fr
      simp [Trie.insertWalk, chainW, getChild, setChild, TrieNode.children,
        TrieNode.isEndOfWord, TrieNode.suggestions, TrieNode.frequency, ih]

theorem chainW_bump (sugs : List Suggestion) (cf fr : Int) (p : List Char) :
    TrieNode.mk (chainW sugs cf fr p).children (chainW sugs cf fr p).isEndOfWord
        (chainW sugs cf fr p).suggestions ((chainW sugs cf fr p).frequency + 1)
      = chainW sugs cf (fr + 1) p := by
  cases p <;>
    simp [chainW, TrieNode.children, TrieNode.isEndOfWord, TrieNode.suggestions,
      TrieNode.frequency]

theorem insertWalk_chainW (s2 : Suggestion) (sugs : List Suggestion) :
    ∀ (p : List Char) (fr : Int),
      Trie.insertWalk (chainW sugs 1 fr p) p s2
        = (chainW
            (sortGo (if sugs.any (fun c => decide (c.Term = s2.Term)) then upsertFirst sugs s2
                     else sugs ++ [s2]))
            2 fr p, false) := by
  intro p
  induction p with
  | nil =>
      intro fr
      simp [chainW, Trie.insertWalk]
  | cons c rest ih =>
      intro fr
      have hb := chainW_bump sugs 1 1 rest
      norm_num at hb
      simp only [chainW, Trie.insertWalk, getChild, if_pos, Option.getD_some, hb, ih]
      simp [setChild]

theorem walkPath_chainW (sugs : List Suggestion) (cf : Int) :
    ∀ (p : List Char) (fr : Int),
      ∃ g, walkPath (chainW sugs cf fr p) p = some (TrieNode.mk [] true sugs g) := by
  intro p
  induction p with
  | nil => intro fr; exact ⟨fr, rfl⟩
  | cons c rest ih =>
      intro fr
      obtain ⟨g, hg⟩ := ih cf
      refine ⟨g, ?_⟩
      simp [chainW, walkPath, getChild, TrieNode.children, hg]

theorem updateFreqWalk_chainW (sugs : List Suggestion) (term : List Char) (f : Int) (cf : Int) :
    ∀ (p : List Char) (fr : Int),
      Trie.updateFreqWalk (chainW sugs cf fr p) p term f
        = chainW (sortGo (updateFirstMatch sugs term f)) cf fr p := by
  intro p
  induction p with
  | nil => intro fr; simp [chainW, Trie.updateFreqWalk]
  | cons c rest ih =>
      intro fr
      simp [chainW, Trie.updateFreqWalk, getChild, setChild, ih]

theorem collect_leaf (sugs : List Suggestion) (fr : Int) :
    collectSuggestions (.mk [] true sugs fr) = sugs := by
  simp [collectSuggestions, collectChildren]

theorem lookupKey_none_of_not_mem (data : List (List Char × CacheItem)) (q : List Char)
    (h : q ∉ data.map Prod.fst) : lookupKey data q = none := by
  induction data with
  | nil => rfl
  | cons p rest ih =>
      simp only [List.map_cons, List.mem_cons, not_or] at h
      have hne : ¬ p.1 = q := fun hh => h.1 hh.symm
      cases p
      simp [lookupKey, hne, ih h.2]

theorem lookupKey_erase_self (data : List (List Char × CacheItem)) (q : List Char)
    (hnd : (data.map Prod.fst).Nodup) : lookupKey (eraseKey data q) q = none := by
  induction data with
  | nil => rfl
  | cons p rest ih =>
      simp only [List.map_cons, List.nodup_cons] at hnd
      cases p with
      | mk k it =>
          by_cases hk : k = q
          · subst hk
            simp [eraseKey, lookupKey_none_of_not_mem rest k hnd.1]
          · simp [eraseKey, lookupKey, hk, ih hnd.2]

theorem processBatch_recentQueries (st : PipelineState) (logs : List SearchLog) (now : Rat) :
    (processBatch st logs now).recentQueries = st.recentQueries := by
  by_cases h : logs.isEmpty <;> simp [processBatch, h]

theorem flush_recentQueries (st : PipelineState) :
    (flushFrequencyUpdates st).recentQueries = st.recentQueries := rfl

/-- On an empty detector window `analyzeTrends` finds nothing trending and
changes nothing. -/
theorem analyzeTrends_empty_window (st : PipelineState) (now : Rat)
    (h : st.recentQueries = []) : analyzeTrends st now = st := by
  obtain ⟨t, fu, rq⟩ := st
  simp only at h
  subst h
  simp [analyzeTrends]

/-! ## Concrete inputs used by the counterexamples and witnesses -/

/-- Candidate `app` with base score 1200 (the sample-data value). -/
def appSugg : Suggestion := ⟨gs "app", 1200, 1200, gs "tech", 0⟩

/-- Candidate `apple` with base score 1000 (the sample-data value). -/
def appleSugg : Suggestion := ⟨gs "apple", 1000, 1000, gs "fruit", 0⟩

/-- Trie holding `app` and `apple`, where `apple`'s terminal node sits below
the terminal node of `app`. -/
def tDel : Trie := Trie.Insert (Trie.Insert Trie.empty appSugg) appleSugg

/-- Ranker input whose score the Go code overwrites in place. -/
def rankIn : Suggestion := ⟨gs "app", 100, 100, [], 0⟩

theorem boost_rankIn : boostSuggestion 10000 (gs "app") rankIn
    = { rankIn with Score := 2000 / 13 } := by
  have hp : hasPrefixL (toLowerL rankIn.Term) (gs "app") = true := by decide
  have hl : ((rankIn.Term.length : Rat)) = 3 := by norm_num [rankIn, gs]
  simp only [boostSuggestion, hp, if_true, hl]
  norm_num [rankIn]

theorem rank_rankIn : rankSuggestions 10000 [rankIn] (gs "app")
    = [{ rankIn with Score := 2000 / 13 }] := by
  simp [rankSuggestions, sortGo, List.insertionSort, boost_rankIn]

/-- Equal-score candidates whose terms are reverse lexicographic. -/
def tieA : Suggestion := ⟨gs "ab", 1, 5, [], 0⟩

/-- Second equal-score candidate, term lexicographically after `tieA`'s. -/
def tieB : Suggestion := ⟨gs "ba", 1, 5, [], 0⟩

theorem boost_tieA : boostSuggestion 10000 (gs "x") tieA = { tieA with Score := 25 / 6 } := by
  have hp : hasPrefixL (toLowerL tieA.Term) (gs "x") = false := by decide
  have hl : ((tieA.Term.length : Rat)) = 2 := by norm_num [tieA, gs]
  simp only [boostSuggestion, hp, hl, Bool.false_eq_true, if_false]
  norm_num [tieA]

theorem boost_tieB : boostSuggestion 10000 (gs "x") tieB = { tieB with Score := 25 / 6 } := by
  have hp : hasPrefixL (toLowerL tieB.Term) (gs "x") = false := by decide
  have hl : ((tieB.Term.length : Rat)) = 2 := by norm_num [tieB, gs]
  simp only [boostSuggestion, hp, hl, Bool.false_eq_true, if_false]
  norm_num [tieB]

theorem rank_tieAB : rankSuggestions 10000 [tieA, tieB] (gs "x")
    = [{ tieA with Score := 25 / 6 }, { tieB with Score := 25 / 6 }] := by
  simp [rankSuggestions, sortGo, List.insertionSort, boost_tieA, boost_tieB,
    List.orderedInsert, scoreGe]

theorem rank_tieBA : rankSuggestions 10000 [tieB, tieA] (gs "x")
    = [{ tieB with Score := 25 / 6 }, { tieA with Score := 25 / 6 }] := by
  simp [rankSuggestions, sortGo, List.insertionSort, boost_tieA, boost_tieB,
    List.orderedInsert, scoreGe]

/-- Case-variant pair: `Apple` first. -/
def caseA : Suggestion := ⟨gs "Apple", 1, 5, [], 0⟩

/-- Case-variant pair: `apple` second, lower score. -/
def caseB : Suggestion := ⟨gs "apple", 1, 3, [], 0⟩

/-- Suggestion whose verbatim term carries a leading space. -/
def wsSugg : Suggestion := ⟨(Char.ofNat 32) :: 'a' :: [], 0, 0, [], 0⟩

/-- Candidate `a` with frequency 1000, to be clobbered by a flush. -/
def pendSugg : Suggestion := ⟨gs "a", 1000, 1000, [], 0⟩

/-- Pipeline state before the batch: `a` is indexed with frequency 1000. -/
def stP0 : PipelineState := ⟨Trie.Insert Trie.empty pendSugg, [], []⟩

/-- State after batching three `a` events (pending delta 3). -/
def stP1 : PipelineState := processBatch stP0 (List.replicate 3 ⟨gs "a", 50⟩) 60

/-- State after the frequency flush. -/
def stP2 : PipelineState := flushFrequencyUpdates stP1

/-- One `zigzag` search event, timestamped inside the detector's last hour. -/
def zigzagLog : SearchLog := ⟨gs "zigzag", 99⟩

/-- Fresh pipeline over an empty index. -/
def stZ0 : PipelineState := ⟨Trie.empty, [], []⟩

/-- State after the batcher consumes 200 `zigzag` events. -/
def stZ1 : PipelineState := processBatch stZ0 (List.replicate 200 zigzagLog) 100

/-- State after the frequency flush that indexes `zigzag` at its raw count. -/
def stZ2 : PipelineState := flushFrequencyUpdates stZ1

/-- Trie holding the single term `ab`, for the negative-cap witness. -/
def tNeg : Trie := Trie.Insert Trie.empty ⟨gs "ab", 5, 5, [], 0⟩

/-- Cache store with one entry for `q` expiring at hour 10. -/
def cacheData : List (List Char × CacheItem) :=
  [(gs "q", ⟨[appSugg], 10⟩)]

/-! ## Claim theorems -/

/-- C1: evaluation of `Trie.Delete` at the failing input.  With `app` and
`apple` both indexed, `Delete("apple")` removes `apple`'s candidate (searches
below `app` no longer return it) yet returns `false`, because `deleteHelper`
propagates the prune flag instead of a "removed" flag: the terminal node of
`apple` is cleared, but its chain stops being prunable at the still-terminal
`app` node, so `false` bubbles up and the size counter is left at 2.  The
claim (and the spec) require `true` here. -/
theorem delete_present_term_returns_false :
    Trie.Search tDel (gs "apple") 10 = some [appleSugg]
    ∧ (Trie.Delete tDel (gs "apple")).1 = false
    ∧ Trie.Search (Trie.Delete tDel (gs "apple")).2 (gs "app") 10 = some [appSugg]
    ∧ Trie.Search (Trie.Delete tDel (gs "apple")).2 (gs "apple") 10 = some []
    ∧ (Trie.Delete tDel (gs "apple")).2.size = 2 := by
  refine ⟨by decide, by decide, by decide, by decide, by decide⟩

/-- C5: evaluation of the size counter at the failing input.  After inserting
`app` and `apple` and calling `Delete("apple")`, one distinct case-folded
term remains in the tree (`GetSuggestionsCount` finds a single terminal
candidate), but `size` still reports 2 because `Delete` only decrements when
`deleteHelper` returns `true`. -/
theorem size_overcounts_after_delete :
    (Trie.Delete tDel (gs "apple")).2.size = 2
    ∧ Trie.GetSuggestionsCount (Trie.Delete tDel (gs "apple")).2 = 1 := by
  refine ⟨by decide, by decide⟩

/-- C2 counterexample: a pipeline flush decreases a stored frequency.  The
index holds `a` at frequency 1000; three `a` events are batched (pending
delta 3); the flush calls `UpdateFrequency("a", 3)`, which overwrites the
frequency with the delta, so the stored frequency drops from 1000 to 3 —
refuting "the term's stored frequency is at least its frequency before the
flush" at this input. -/
theorem flush_decreases_frequency :
    (walkPath stP1.trie.root (gs "a")).map TrieNode.suggestions = some [pendSugg]
    ∧ stP1.freqUpdates = [(gs "a", 3)]
    ∧ (walkPath stP2.trie.root (gs "a")).map TrieNode.suggestions
        = some [⟨gs "a", 3, 3, [], 0⟩]
    ∧ ¬ ((1000 : Int) ≤ 3) := by
  refine ⟨by decide, by decide, by decide, by decide⟩

/-- C2 as amended: a flush sets the stored frequency of a pending term to the
pending delta (together with the base score), rather than accumulating it;
for a normalised indexed term and pending entry `(term, d)` the candidate
ends with frequency exactly `d`, and the pending map is cleared. -/
theorem flush_sets_frequency_to_delta (s : Suggestion) (d : Int)
    (rq : List (List Char × List Rat))
    (h1 : trimL s.Term = s.Term) (h2 : toLowerL s.Term = s.Term) (h0 : s.Term ≠ []) :
    ((walkPath (flushFrequencyUpdates ⟨Trie.Insert Trie.empty s, [(s.Term, d)], rq⟩).trie.root
          s.Term).map TrieNode.suggestions
        = some [{ s with Frequency := d, Score := (d : Rat) }])
      ∧ (flushFrequencyUpdates ⟨Trie.Insert Trie.empty s, [(s.Term, d)], rq⟩).freqUpdates
          = [] := by
  have hn : normalizeTerm s.Term = s.Term := by
    unfold normalizeTerm
    rw [h1, h2]
  have hni : (normalizeTerm s.Term).isEmpty = false := by
    rw [hn]; exact isEmpty_false_of_ne h0
  have h0n : normalizeTerm s.Term ≠ [] := by rw [hn]; exact h0
  have hins : Trie.Insert Trie.empty s = ⟨chainW [s] 1 0 s.Term, 1⟩ := by
    simp [Trie.Insert, Trie.empty, hni, insertWalk_fresh, hn, h0n, h0]
  have hupd : updateFirstMatch [s] s.Term d
      = [{ s with Frequency := d, Score := (d : Rat) }] := by
    simp [updateFirstMatch, h2]
  have hflush : flushFrequencyUpdates ⟨Trie.Insert Trie.empty s, [(s.Term, d)], rq⟩
      = ⟨⟨chainW [{ s with Frequency := d, Score := (d : Rat) }] 1 0 s.Term, 1⟩, [], rq⟩ := by
    rw [hins]
    simp [flushFrequencyUpdates, Trie.UpdateFrequency, hn, hni, h0, updateFreqWalk_chainW, hupd,
      sortGo, List.insertionSort, List.orderedInsert]
  rw [hflush]
  obtain ⟨g, hg⟩ := walkPath_chainW [{ s with Frequency := d, Score := (d : Rat) }] 1 s.Term 0
  simp [hg, TrieNode.suggestions]

/-- Witness for C2's amended theorem at `s = app/1200`, `d = 3`. -/
theorem flush_sets_frequency_to_delta_witness :
    ((walkPath (flushFrequencyUpdates
          ⟨Trie.Insert Trie.empty appSugg, [(appSugg.Term, 3)], []⟩).trie.root
          appSugg.Term).map TrieNode.suggestions
        = some [{ appSugg with Frequency := 3, Score := ((3 : Int) : Rat) }])
      ∧ (flushFrequencyUpdates
          ⟨Trie.Insert Trie.empty appSugg, [(appSugg.Term, 3)], []⟩).freqUpdates = [] :=
  flush_sets_frequency_to_delta appSugg 3 [] (by decide) (by decide) (by decide)

/-- C3 counterexample: the ranker breaks no ties and is not deterministic on
permuted inputs.  Two candidates with the same base score, the same length
and stale timestamps get identical boosted scores (25/6 each); ranking keeps
them in input order, so the permuted inputs `[tieA, tieB]` and
`[tieB, tieA]` produce different outputs, and in the second output the terms
appear as `["ba", "ab"]`, not in lexicographic order. -/
theorem rank_ties_not_deterministic :
    ([tieA, tieB] : List Suggestion).Perm [tieB, tieA]
    ∧ rankSuggestions 10000 [tieA, tieB] (gs "x") ≠ rankSuggestions 10000 [tieB, tieA] (gs "x")
    ∧ (rankSuggestions 10000 [tieB, tieA] (gs "x")).map Suggestion.Term = [gs "ba", gs "ab"]
    ∧ (rankSuggestions 10000 [tieB, tieA] (gs "x")).map Suggestion.Score
        = [25 / 6, 25 / 6] := by
  refine ⟨by decide, ?_, ?_, ?_⟩
  · rw [rank_tieAB, rank_tieBA]
    intro h
    have h2 := List.head_eq_of_cons_eq h
    have h3 : (gs "ab") = (gs "ba") := congrArg Suggestion.Term h2
    exact absurd h3 (by decide)
  · rw [rank_tieBA]
    exact rfl
  · rw [rank_tieBA]
    exact rfl

/-- C3 as amended: the ranker's output is sorted by the boosted composite
score in non-increasing order and is a permutation of the boosted input
candidates; no further tie-break is applied, so the relative order of
equal-score candidates is whatever the sort leaves (input order for short
slices), not a lexicographic or recency order. -/
theorem rank_sorted_and_permutation (now : Rat) (sugs : List Suggestion) (query : List Char) :
    (rankSuggestions now sugs query).Sorted scoreGe
    ∧ (rankSuggestions now sugs query).Perm (sugs.map (boostSuggestion now query)) := by
  unfold rankSuggestions
  by_cases h : sugs.isEmpty
  · have he : sugs = [] := by
      cases sugs with
      | nil => rfl
      | cons a rest => simp [List.isEmpty] at h
    subst he
    simp
  · have hb : sugs.isEmpty = false := by
      cases hh : sugs.isEmpty
      · rfl
      · exact absurd hh h
    simp only [hb, Bool.false_eq_true, if_false]
    exact ⟨List.sorted_insertionSort scoreGe _, List.perm_insertionSort scoreGe _⟩

/-- C4 counterexample: inserting `Apple` then `apple` leaves two candidates
at the shared terminal node — the second insert appends instead of
overwriting, because the candidate comparison `Suggestions[i].Term ==
suggestion.Term` is case-sensitive.  The size counter still reports 1 while
the tree holds 2 candidates. -/
theorem insert_case_variant_appends :
    (walkPath (Trie.Insert (Trie.Insert Trie.empty caseA) caseB).root (gs "apple")).map
        TrieNode.suggestions = some [caseA, caseB]
    ∧ (Trie.Insert (Trie.Insert Trie.empty caseA) caseB).size = 1
    ∧ Trie.GetSuggestionsCount (Trie.Insert (Trie.Insert Trie.empty caseA) caseB) = 2 := by
  refine ⟨by decide, by decide, by decide⟩

/-- C4 as amended: the candidate list is keyed by the verbatim term, not the
case-folded one.  For two inserts whose terms share a case-folded path, the
second insert overwrites only when the raw terms are exactly equal (leaving
`[s2]`); otherwise it appends, leaving both case-variants (re-sorted by
score) at the shared terminal node.  Either way the size counter ends at 1
for the shared path. -/
theorem insert_keyed_by_verbatim_term (s1 s2 : Suggestion)
    (hp : normalizeTerm s1.Term = normalizeTerm s2.Term)
    (h0 : normalizeTerm s2.Term ≠ []) :
    (Trie.Insert (Trie.Insert Trie.empty s1) s2).size = 1 ∧
      (walkPath (Trie.Insert (Trie.Insert Trie.empty s1) s2).root (normalizeTerm s2.Term)).map
          TrieNode.suggestions
        = some (if s2.Term = s1.Term then [s2] else sortGo [s1, s2]) := by
  have hni : (normalizeTerm s2.Term).isEmpty = false := isEmpty_false_of_ne h0
  have hni1 : (normalizeTerm s1.Term).isEmpty = false := by rw [hp]; exact hni
  have h0s : normalizeTerm s1.Term ≠ [] := by rw [hp]; exact h0
  have hins : Trie.Insert Trie.empty s1 = ⟨chainW [s1] 1 0 (normalizeTerm s2.Term), 1⟩ := by
    simp [Trie.Insert, Trie.empty, hni1, insertWalk_fresh, hp, h0s, h0]
  have hX : (if s1.Term = s2.Term then upsertFirst [s1] s2 else [s1, s2])
      = if s2.Term = s1.Term then [s2] else [s1, s2] := by
    by_cases h : s1.Term = s2.Term
    · simp [h, upsertFirst]
    · have h2 : ¬ s2.Term = s1.Term := fun hh => h hh.symm
      simp [h, h2]
  have hins2 : Trie.Insert (Trie.Insert Trie.empty s1) s2
      = ⟨chainW (sortGo (if s2.Term = s1.Term then [s2] else [s1, s2])) 2 0
          (normalizeTerm s2.Term), 1⟩ := by
    rw [hins]
    simp [Trie.Insert, hni, insertWalk_chainW, h0, hX]
  rw [hins2]
  obtain ⟨g, hg⟩ := walkPath_chainW (sortGo (if s2.Term = s1.Term then [s2] else [s1, s2])) 2
    (normalizeTerm s2.Term) 0
  refine ⟨rfl, ?_⟩
  rw [hg]
  by_cases h : s2.Term = s1.Term
  · simp [h, TrieNode.suggestions, sortGo, List.insertionSort, List.orderedInsert]
  · simp [h, TrieNode.suggestions]

/-- Witness for C4's amended theorem at the `Apple`/`apple` pair. -/
theorem insert_keyed_by_verbatim_term_witness :
    (Trie.Insert (Trie.Insert Trie.empty caseA) caseB).size = 1 ∧
      (walkPath (Trie.Insert (Trie.Insert Trie.empty caseA) caseB).root
          (normalizeTerm caseB.Term)).map TrieNode.suggestions
        = some (if caseB.Term = caseA.Term then [caseB] else sortGo [caseA, caseB]) :=
  insert_keyed_by_verbatim_term caseA caseB (by decide) (by decide)

/-- C6 counterexample: 200 `zigzag` events enqueued within the last hour
(and none earlier) are batched and flushed, indexing `zigzag` at its raw
count 200; when the trend detector then fires, its timestamp window is empty
(nothing ever writes into it), `analyzeTrends` changes nothing, and the
stored frequency stays 200 — not greater than the raw count by a factor of
at least 5/2 (which would require at least 500). -/
theorem trending_never_boosts :
    stZ1.freqUpdates = [(gs "zigzag", 200)]
    ∧ (walkPath (analyzeTrends stZ2 100).trie.root (gs "zigzag")).map TrieNode.suggestions
        = some [⟨gs "zigzag", 200, 200, gs "general", 100⟩]
    ∧ ¬ ((5 : Rat) / 2 * 200 ≤ 200) := by
  refine ⟨?_, ?_, ?_⟩
  · set_option maxRecDepth 200000 in decide
  · rw [analyzeTrends_empty_window stZ2 100 rfl]
    set_option maxRecDepth 200000 in decide
  · norm_num

/-- C6 as amended: the trend detector's per-query timestamp window is *not*
populated from the event stream.  It starts empty, and no pipeline action
(batch processing, frequency flush or detector tick) ever writes a
timestamp into it, so in every reachable pipeline state the window is empty
and a detector tick leaves the whole state — in particular every stored
frequency — unchanged: no query is ever classified as trending and no boost
is ever applied. -/
theorem detector_window_never_populated (st : PipelineState) (h : Reachable st) :
    st.recentQueries = [] ∧ ∀ now, analyzeTrends st now = st := by
  have hw : st.recentQueries = [] := by
    induction h with
    | init t => rfl
    | step hr hstep ih =>
        cases hstep with
        | batch logs now => rw [processBatch_recentQueries]; exact ih
        | flush => rw [flush_recentQueries]; exact ih
        | detect now => rw [analyzeTrends_empty_window _ now ih]; exact ih
  exact ⟨hw, fun now => analyzeTrends_empty_window st now hw⟩

/-- Witness for C6's amended theorem at the concrete reachable state reached
by batching the 200 `zigzag` events and flushing. -/
theorem detector_window_never_populated_witness :
    stZ2.recentQueries = [] ∧ analyzeTrends stZ2 100 = stZ2 :=
  have h := detector_window_never_populated stZ2
    (Reachable.step (Reachable.step (Reachable.init Trie.empty)
      (PipeStep.batch stZ0 (List.replicate 200 zigzagLog) 100))
      (PipeStep.flush stZ1))
  ⟨h.1, h.2 100⟩

/-- C7: evaluation of the ranker's in-place mutation at the failing input.
The Go method writes each boosted score through the argument slice
(`suggestions[i].Score = score`) and sorts it in place, returning the same
slice; so after the call the caller's list is the returned one.  For the
single candidate `app`/score-100 and query `app` the post-call contents
differ from the input (the score became 2000/13), refuting "every suggestion
in the input list is unchanged after ranking". -/
theorem rank_writes_boosted_scores_into_input :
    rankSuggestions 10000 [rankIn] (gs "app") ≠ [rankIn]
    ∧ (rankSuggestions 10000 [rankIn] (gs "app")).map Suggestion.Score = [2000 / 13]
    ∧ rankIn.Score = 100 := by
  refine ⟨?_, ?_, rfl⟩
  · rw [rank_rankIn]
    intro h
    have h2 := List.head_eq_of_cons_eq h
    have h3 : (2000 : Rat) / 13 = 100 := congrArg Suggestion.Score h2
    norm_num at h3
  · rw [rank_rankIn]
    exact rfl

/-- C8 counterexample: the round trip fails when the verbatim term carries
surrounding whitespace.  For `s` with term `" a"`, `insert(s)` stores the
candidate under path `a`, but `update_frequency(" a", 5)` compares the
lower-cased *untrimmed* stored term `" a"` against the normalised term `"a"`
and misses, so the subsequent search returns the candidate with its old
frequency 0, not 5 — even though the normalised term is non-empty and the
claim promises a candidate with frequency 5. -/
theorem round_trip_fails_on_whitespace :
    normalizeTerm wsSugg.Term ≠ []
    ∧ Trie.Search (Trie.UpdateFrequency (Trie.Insert Trie.empty wsSugg) wsSugg.Term 5)
        wsSugg.Term 1 = some [wsSugg]
    ∧ ¬ ∃ c ∈ [wsSugg], c.Term = wsSugg.Term ∧ c.Frequency = 5 := by
  refine ⟨by decide, by decide, by decide⟩

/-- C8 as amended: the round trip holds for suggestions whose verbatim term
has no surrounding whitespace (`TrimSpace` is the identity on it) and a
non-empty normalised term: from an empty index,
`insert(s); update_frequency(s.term, f); search(s.term, k)` with `k ≥ 1`
returns exactly the candidate with term `s.term` verbatim, frequency `f` and
base score `f`. -/
theorem round_trip_insert_update_search (s : Suggestion) (f : Int) (k : Int)
    (h1 : trimL s.Term = s.Term) (h0 : normalizeTerm s.Term ≠ [])
    (hf : 0 ≤ f) (hk : 1 ≤ k) :
    Trie.Search (Trie.UpdateFrequency (Trie.Insert Trie.empty s) s.Term f) s.Term k
      = some [{ s with Frequency := f, Score := (f : Rat) }] := by
  have hni : (normalizeTerm s.Term).isEmpty = false := isEmpty_false_of_ne h0
  have hins : Trie.Insert Trie.empty s = ⟨chainW [s] 1 0 (normalizeTerm s.Term), 1⟩ := by
    simp [Trie.Insert, Trie.empty, hni, h0, insertWalk_fresh]
  have hmatch : toLowerL s.Term = normalizeTerm s.Term := by
    unfold normalizeTerm
    rw [h1]
  have hupd : updateFirstMatch [s] (normalizeTerm s.Term) f
      = [{ s with Frequency := f, Score := (f : Rat) }] := by
    simp [updateFirstMatch, hmatch]
  have hupdate : Trie.UpdateFrequency (Trie.Insert Trie.empty s) s.Term f
      = ⟨chainW [{ s with Frequency := f, Score := (f : Rat) }] 1 0
          (normalizeTerm s.Term), 1⟩ := by
    rw [hins]
    simp [Trie.UpdateFrequency, hni, h0, updateFreqWalk_chainW, hupd, sortGo,
      List.insertionSort, List.orderedInsert]
  rw [hupdate]
  obtain ⟨g, hg⟩ := walkPath_chainW [{ s with Frequency := f, Score := (f : Rat) }] 1
    (normalizeTerm s.Term) 0
  have hlen : ¬ ((sortGo (collectSuggestions (TrieNode.mk [] true
      [{ s with Frequency := f, Score := (f : Rat) }] g))).length : Int) > k := by
    rw [collect_leaf]
    simp [sortGo, List.insertionSort, List.orderedInsert]
    omega
  simp [Trie.Search, hni, h0, hg, hlen, collect_leaf, sortGo, List.insertionSort,
    List.orderedInsert]
  omega

/-- Witness for C8's amended theorem: `Apple`/frequency 7 updated to 42. -/
theorem round_trip_insert_update_search_witness :
    Trie.Search (Trie.UpdateFrequency (Trie.Insert Trie.empty caseA) caseA.Term 42)
        caseA.Term 1
      = some [{ caseA with Frequency := 42, Score := ((42 : Int) : Rat) }] :=
  round_trip_insert_update_search caseA 42 1 (by decide) (by decide) (by decide) (by decide)

/-- C9: contract of the in-process cache's `Get`.  Over any store with
unique keys (Go maps cannot hold duplicates): the hit flag is `true` exactly
when a non-expired entry exists; a hit returns the stored payload and leaves
the store unchanged; an expired entry yields a miss and is removed from the
store (a subsequent lookup finds nothing); an absent key yields a miss with
the store unchanged. -/
theorem cache_get_contract (data : List (List Char × CacheItem)) (now : Rat) (q : List Char)
    (hnd : (data.map Prod.fst).Nodup) :
    ((InMemoryCache.Get data now q).2.1 = true
        ↔ ∃ item, lookupKey data q = some item ∧ ¬ item.expiry < now)
    ∧ (∀ item, lookupKey data q = some item → ¬ item.expiry < now →
        InMemoryCache.Get data now q = (some item.suggestions, true, data))
    ∧ (∀ item, lookupKey data q = some item → item.expiry < now →
        InMemoryCache.Get data now q = (none, false, eraseKey data q) ∧
          lookupKey (InMemoryCache.Get data now q).2.2 q = none)
    ∧ (lookupKey data q = none → InMemoryCache.Get data now q = (none, false, data)) := by
  refine ⟨?_, ?_, ?_, ?_⟩
  · constructor
    · intro hhit
      cases hlook : lookupKey data q with
      | none => simp [InMemoryCache.Get, hlook] at hhit
      | some item =>
          by_cases hexp : item.expiry < now
          · simp [InMemoryCache.Get, hlook, hexp] at hhit
          · exact ⟨item, rfl, hexp⟩
    · rintro ⟨item, hlook, hexp⟩
      simp [InMemoryCache.Get, hlook, hexp]
  · intro item hlook hexp
    simp [InMemoryCache.Get, hlook, hexp]
  · intro item hlook hexp
    refine ⟨by simp [InMemoryCache.Get, hlook, hexp], ?_⟩
    simp [InMemoryCache.Get, hlook, hexp, lookupKey_erase_self data q hnd]
  · intro hlook
    simp [InMemoryCache.Get, hlook]

/-- Witness for C9 on a one-entry store: a hit before expiry, a removing
miss after expiry. -/
theorem cache_get_contract_witness :
    InMemoryCache.Get cacheData 5 (gs "q") = (some [appSugg], true, cacheData)
    ∧ InMemoryCache.Get cacheData 20 (gs "q") = (none, false, eraseKey cacheData (gs "q")) :=
  ⟨(cache_get_contract cacheData 5 (gs "q") (by decide)).2.1 ⟨[appSugg], 10⟩ (by decide)
      (by norm_num),
   ((cache_get_contract cacheData 20 (gs "q") (by decide)).2.2.1 ⟨[appSugg], 10⟩ (by decide)
      (by norm_num)).1⟩

/-- C10: `Search` with a negative cap panics (modelled as `none`) whenever
the normalised prefix is non-empty and reaches a node — in particular
whenever the prefix's subtree holds at least one candidate — because
`suggestions[:limit]` is evaluated under `len(suggestions) > limit`, which
always holds for a negative `limit`; and for every non-negative cap `Search`
is total, returning some (possibly empty) list. -/
theorem search_partial_on_negative_cap (t : Trie) (pre : List Char) (limit : Int) :
    (limit < 0 → normalizeTerm pre ≠ [] →
      ∀ node, walkPath t.root (normalizeTerm pre) = some node →
        1 ≤ (collectSuggestions node).length → Trie.Search t pre limit = none)
    ∧ (0 ≤ limit → ∃ l, Trie.Search t pre limit = some l) := by
  constructor
  · intro hneg hne node hwalk _hcand
    have hni : (normalizeTerm pre).isEmpty = false := isEmpty_false_of_ne hne
    have hgt : ((sortGo (collectSuggestions node)).length : Int) > limit := by
      have : (0 : Int) ≤ ((sortGo (collectSuggestions node)).length : Int) :=
        Int.ofNat_nonneg _
      omega
    simp [Trie.Search, hni, hne, hwalk, hgt, hneg]
  · intro hpos
    by_cases hni : (normalizeTerm pre).isEmpty
    · exact ⟨[], by simp [Trie.Search, hni]⟩
    · cases hwalk : walkPath t.root (normalizeTerm pre) with
      | none => exact ⟨[], by simp [Trie.Search, hni, hwalk]⟩
      | some node =>
          by_cases hlen : ((sortGo (collectSuggestions node)).length : Int) > limit
          · refine ⟨(sortGo (collectSuggestions node)).take limit.toNat, ?_⟩
            have hnn : ¬ limit < 0 := by omega
            simp [Trie.Search, hni, hwalk, hlen, hnn]
          · exact ⟨sortGo (collectSuggestions node), by simp [Trie.Search, hni, hwalk, hlen]⟩

/-- Witness for C10 on the one-term trie `ab`: cap `-1` panics, cap `0` is
total. -/
theorem search_partial_on_negative_cap_witness :
    Trie.Search tNeg (gs "ab") (-1) = none
    ∧ ∃ l, Trie.Search tNeg (gs "ab") 0 = some l :=
  ⟨(search_partial_on_negative_cap tNeg (gs "ab") (-1)).1 (by decide) (by decide)
      (TrieNode.mk [] true [⟨gs "ab", 5, 5, [], 0⟩] 1) rfl (by decide),
   (search_partial_on_negative_cap tNeg (gs "ab") 0).2 (by decide)⟩
